import Mathlib

/-!
Verification of the chess front-end interaction state machine.

The program under study is an interactive chess GUI.  Its core is the
method VisualBoard::update, which consumes pointer messages (Clicked,
CursorMoved), maps pixel points to board squares, manages a selection,
and drives the pawn-promotion sub-state machine.

The external chess-rules engine (the cozy_chess crate) is not part of
this repository; following the design document it is modelled as an
abstract collaborator (structure Engine) supplying piece lookup,
promotion-move detection and move commitment.  Pixel coordinates are
modelled as rationals; the Rust cast to usize applied to a guarded
non-negative value is floor followed by Int.toNat.  A Rust panic, and
an Option unwrap applied to None, are modelled by the update function
returning none.  The rendering cache, colors and drawing code are out
of scope and omitted.
-/

/-- Chess piece kinds, mirroring the piece enumeration of the engine. -/
inductive Piece where
  | pawn
  | knight
  | bishop
  | rook
  | queen
  | king
deriving DecidableEq

/-- A board square, addressed by its linear index 0..63. -/
abbrev Square := Nat

/-- A move record: source square, destination square, optional promotion piece. -/
structure ChessMove where
  fromSq : Square
  toSq : Square
  promotion : Option Piece
deriving DecidableEq

/-- The external move-engine boundary.  pieceOn models piece_on;
isPromotionMove models the generate_moves_for scan looking for a
generated move from the first argument square to the second that
carries a promotion; tryPlay models try_play and returns the (possibly
unchanged) board. -/
structure Engine (B : Type) where
  pieceOn : B → Square → Option Piece
  isPromotionMove : B → Square → Square → Bool
  tryPlay : B → ChessMove → B

/-- The interaction states of the state machine. -/
inductive State where
  | playing
  | waiting
  | promoting
deriving DecidableEq

/-- A pixel point, with rational coordinates. -/
structure Point where
  x : ℚ
  y : ℚ
deriving DecidableEq

/-- The two pointer messages consumed by update. -/
inductive Message where
  | Clicked (p : Point)
  | CursorMoved (p : Point)

/-- The mutable application state (rendering-only fields omitted). -/
structure VisualBoard (B : Type) where
  tile_size : ℚ
  board : B
  selected : Option Square
  promotion_square : Option Square
  state : State
  hovered_tile : Option (Nat × Nat)
deriving DecidableEq

/-- coord_to_square from the source: 63 - (y * 8 + (7 - x)). -/
def coord_to_square (x y : Nat) : Square :=
  63 - (y * 8 + (7 - x))

/-- index_to_coord from the source: (index mod 8, 7 - index / 8). -/
def index_to_coord (index : Nat) : Nat × Nat :=
  (index % 8, 7 - index / 8)

/-- The Rust cast to usize applied to a guarded non-negative rational:
floor, then clamp to Nat. -/
def ratToUsize (q : ℚ) : Nat :=
  (Int.floor q).toNat

/-- canvas_coord_to_square_coord: divide both pixel coordinates by the
tile size. -/
def canvas_coord_to_square_coord {B : Type} (vb : VisualBoard B) (point : Point) : ℚ × ℚ :=
  (point.x / vb.tile_size, point.y / vb.tile_size)

/-- square_from_point: none when either scaled coordinate falls outside
the interval from 0 inclusive to 8 exclusive, otherwise the square
given by flooring and applying coord_to_square.  The condition is
written in the same order as the source. -/
def square_from_point {B : Type} (vb : VisualBoard B) (point : Point) : Option Square :=
  if 8 ≤ (canvas_coord_to_square_coord vb point).1 ∨ (canvas_coord_to_square_coord vb point).1 < 0 ∨
     8 ≤ (canvas_coord_to_square_coord vb point).2 ∨ (canvas_coord_to_square_coord vb point).2 < 0 then
    none
  else
    some (coord_to_square (ratToUsize (canvas_coord_to_square_coord vb point).1)
      (ratToUsize (canvas_coord_to_square_coord vb point).2))

/-- The promotion-picker match on the hovered file: 2 maps to rook, 3
to knight, 4 to bishop, 5 to queen; any other value hits the panic arm,
modelled as none. -/
def piece_of_file (x : Nat) : Option Piece :=
  match x with
  | 2 => some Piece.rook
  | 3 => some Piece.knight
  | 4 => some Piece.bishop
  | 5 => some Piece.queen
  | _ => none

/-- The hovered-tile computation of the CursorMoved arm: none when
either scaled coordinate falls outside the interval from 0 inclusive to
8 exclusive, otherwise the floored pair. -/
def hover_of_point {B : Type} (vb : VisualBoard B) (point : Point) : Option (Nat × Nat) :=
  if 8 ≤ (canvas_coord_to_square_coord vb point).1 ∨ (canvas_coord_to_square_coord vb point).1 < 0 ∨
     8 ≤ (canvas_coord_to_square_coord vb point).2 ∨ (canvas_coord_to_square_coord vb point).2 < 0 then
    none
  else
    some (ratToUsize (canvas_coord_to_square_coord vb point).1,
      ratToUsize (canvas_coord_to_square_coord vb point).2)

/-- VisualBoard::update.  Returns none exactly when the original code
panics (the unreachable match arm of the promotion-piece match, or an
unwrap of a None selection or None promotion square). -/
def update {B : Type} (e : Engine B) (vb : VisualBoard B) (message : Message) :
    Option (VisualBoard B) :=
  match message with
  | Message.Clicked point =>
    match vb.state with
    | State.playing =>
      match vb.selected, square_from_point vb point with
      | some selected_square, some new_square =>
        let is_promotion_move : Bool :=
          match e.pieceOn vb.board selected_square with
          | some piece => piece == Piece.pawn && e.isPromotionMove vb.board selected_square new_square
          | none => false
        if is_promotion_move then
          some { vb with promotion_square := some new_square, state := State.promoting }
        else
          some { vb with
            board := e.tryPlay vb.board ⟨selected_square, new_square, none⟩,
            selected := square_from_point vb point }
      | _, _ => some { vb with selected := square_from_point vb point }
    | State.waiting => some vb
    | State.promoting =>
      match vb.hovered_tile with
      | some (x, y) =>
        if 2 ≤ x ∧ x ≤ 5 ∧ y = 4 then
          match piece_of_file x with
          | some piece =>
            match vb.selected, vb.promotion_square with
            | some s, some t =>
              some { vb with
                board := e.tryPlay vb.board ⟨s, t, some piece⟩,
                state := State.playing,
                selected := square_from_point vb point,
                promotion_square := none }
            | _, _ => none
          | none => none
        else some vb
      | none => some vb
  | Message.CursorMoved point =>
    some { vb with hovered_tile := hover_of_point vb point }

/-- The Default impl: nothing selected, no pending promotion, Playing
state, no hovered tile, tile size 64. -/
def initialBoard {B : Type} (b : B) : VisualBoard B :=
  { tile_size := 64
    board := b
    selected := none
    promotion_square := none
    state := State.playing
    hovered_tile := none }

/-- Process a list of messages in order, stopping with none on a panic. -/
def run {B : Type} (e : Engine B) (vb : VisualBoard B) : List Message → Option (VisualBoard B)
  | [] => some vb
  | message :: rest =>
    match update e vb message with
    | some vb2 => run e vb2 rest
    | none => none

/-- The promotion invariant: the state is Promoting exactly when a
promotion square is pending, and in the Promoting state a selection
exists. -/
def promotionInv {B : Type} (vb : VisualBoard B) : Prop :=
  (vb.state = State.promoting ↔ vb.promotion_square.isSome = true) ∧
  (vb.state = State.promoting → vb.selected.isSome = true)

/-- A scripted fake engine with no pieces: every square is empty, no
move is a promotion move, and committing never changes the board. -/
def unitEngine : Engine Unit :=
  ⟨fun _ _ => none, fun _ _ _ => false, fun b _ => b⟩

/-- A scripted fake engine in which every square holds a pawn and every
move is flagged as a promotion move. -/
def pawnEngine : Engine Unit :=
  ⟨fun _ _ => some Piece.pawn, fun _ _ _ => true, fun b _ => b⟩

/-- A concrete Playing-state board with square 52 selected. -/
def promoBoard : VisualBoard Unit :=
  { tile_size := 64
    board := ()
    selected := some 52
    promotion_square := none
    state := State.playing
    hovered_tile := none }

/-- A concrete click point inside grid cell (4, 0), which maps to
square 60. -/
def promoPoint : Point := ⟨259, 5⟩

/-- A concrete Promoting-state board hovering the bishop picker cell. -/
def pickerBoard : VisualBoard Unit :=
  { tile_size := 64
    board := ()
    selected := some 52
    promotion_square := some 60
    state := State.promoting
    hovered_tile := some (4, 4) }

/-- A concrete Promoting-state board hovering a non-picker cell. -/
def offPickerBoard : VisualBoard Unit :=
  { tile_size := 64
    board := ()
    selected := some 52
    promotion_square := some 60
    state := State.promoting
    hovered_tile := some (0, 0) }

/-- A concrete Waiting-state board. -/
def waitingBoard : VisualBoard Unit :=
  { tile_size := 64
    board := ()
    selected := none
    promotion_square := none
    state := State.waiting
    hovered_tile := none }

/-- The initial board over the trivial engine state. -/
def sampleBoard : VisualBoard Unit := initialBoard ()

/-- Helper: the picker match succeeds for every file between 2 and 5. -/
theorem piece_of_file_isSome (x : Nat) (h2 : 2 ≤ x) (h5 : x ≤ 5) :
    ∃ p, piece_of_file x = some p := by
  interval_cases x <;> exact ⟨_, rfl⟩

/-- Helper: mapping a point whose scaled coordinates leave the board
yields none. -/
theorem sfp_none_of_out {B : Type} (vb : VisualBoard B) (point : Point)
    (h : point.x / vb.tile_size < 0 ∨ 8 ≤ point.x / vb.tile_size ∨
      point.y / vb.tile_size < 0 ∨ 8 ≤ point.y / vb.tile_size) :
    square_from_point vb point = none := by
  have hc : 8 ≤ (canvas_coord_to_square_coord vb point).1 ∨
      (canvas_coord_to_square_coord vb point).1 < 0 ∨
      8 ≤ (canvas_coord_to_square_coord vb point).2 ∨
      (canvas_coord_to_square_coord vb point).2 < 0 := by
    rcases h with h | h | h | h
    · exact Or.inr (Or.inl h)
    · exact Or.inl h
    · exact Or.inr (Or.inr (Or.inr h))
    · exact Or.inr (Or.inr (Or.inl h))
  rw [square_from_point, if_pos hc]

/-- Helper: mapping a point whose scaled coordinates stay on the board
floors them and applies the fixed bijection. -/
theorem sfp_some_of_in {B : Type} (vb : VisualBoard B) (point : Point)
    (h1 : 0 ≤ point.x / vb.tile_size) (h2 : point.x / vb.tile_size < 8)
    (h3 : 0 ≤ point.y / vb.tile_size) (h4 : point.y / vb.tile_size < 8) :
    square_from_point vb point =
      some (coord_to_square (ratToUsize (point.x / vb.tile_size))
        (ratToUsize (point.y / vb.tile_size))) := by
  have hc : ¬(8 ≤ (canvas_coord_to_square_coord vb point).1 ∨
      (canvas_coord_to_square_coord vb point).1 < 0 ∨
      8 ≤ (canvas_coord_to_square_coord vb point).2 ∨
      (canvas_coord_to_square_coord vb point).2 < 0) := by
    simp only [canvas_coord_to_square_coord]
    rintro (h | h | h | h) <;> linarith
  rw [square_from_point, if_neg hc]
  rfl

/-- Helper: the hovered-tile computation rephrased with a positive
in-range condition. -/
theorem hover_of_point_eq {B : Type} (vb : VisualBoard B) (point : Point) :
    hover_of_point vb point =
      if 0 ≤ point.x / vb.tile_size ∧ point.x / vb.tile_size < 8 ∧
          0 ≤ point.y / vb.tile_size ∧ point.y / vb.tile_size < 8 then
        some (ratToUsize (point.x / vb.tile_size), ratToUsize (point.y / vb.tile_size))
      else none := by
  simp only [hover_of_point, canvas_coord_to_square_coord]
  by_cases h : 0 ≤ point.x / vb.tile_size ∧ point.x / vb.tile_size < 8 ∧
      0 ≤ point.y / vb.tile_size ∧ point.y / vb.tile_size < 8
  · rw [if_pos h, if_neg]
    obtain ⟨h1, h2, h3, h4⟩ := h
    rintro (hh | hh | hh | hh) <;> linarith
  · rw [if_neg h, if_pos]
    by_contra hc
    push_neg at hc
    exact h ⟨hc.2.1, hc.1, hc.2.2.2, hc.2.2.1⟩

/-- Helper: update never panics and preserves the promotion invariant. -/
theorem update_total_inv {B : Type} (e : Engine B) (vb : VisualBoard B) (m : Message)
    (h : promotionInv vb) :
    ∃ vb2, update e vb m = some vb2 ∧ promotionInv vb2 := by
  obtain ⟨hiff, hselinv⟩ := h
  cases m with
  | CursorMoved point =>
    exact ⟨_, rfl, hiff, hselinv⟩
  | Clicked point =>
    cases hstate : vb.state with
    | waiting =>
      refine ⟨vb, ?_, hiff, hselinv⟩
      simp only [update, hstate]
    | playing =>
      have hps : vb.promotion_square = none := by
        cases hps : vb.promotion_square with
        | none => rfl
        | some q =>
          have := hiff.mpr (by rw [hps]; rfl)
          rw [hstate] at this
          cases this
      cases hsel : vb.selected with
      | none =>
        refine ⟨{ vb with selected := square_from_point vb point }, ?_, ?_, ?_⟩
        · simp only [update, hstate, hsel]
        · simp [hps, hstate]
        · simp [hstate]
      | some s =>
        cases hsq : square_from_point vb point with
        | none =>
          refine ⟨{ vb with selected := square_from_point vb point }, ?_, ?_, ?_⟩
          · simp only [update, hstate, hsel, hsq]
          · simp [hps, hstate]
          · simp [hstate]
        | some t =>
          cases hpm : (match e.pieceOn vb.board s with
            | some piece => piece == Piece.pawn && e.isPromotionMove vb.board s t
            | none => false) with
          | true =>
            refine ⟨{ vb with promotion_square := some t, state := State.promoting }, ?_, ?_, ?_⟩
            · simp only [update, hstate, hsel, hsq, hpm]
              simp
            · simp
            · simp [hsel]
          | false =>
            refine ⟨{ vb with
                board := e.tryPlay vb.board ⟨s, t, none⟩
                selected := square_from_point vb point }, ?_, ?_, ?_⟩
            · simp only [update, hstate, hsel, hsq, hpm]
              simp
            · simp [hps, hstate]
            · simp [hstate]
    | promoting =>
      obtain ⟨t, hps⟩ := Option.isSome_iff_exists.mp (hiff.mp hstate)
      obtain ⟨s, hsel⟩ := Option.isSome_iff_exists.mp (hselinv hstate)
      cases hhov : vb.hovered_tile with
      | none =>
        refine ⟨vb, ?_, hiff, hselinv⟩
        simp only [update, hstate, hhov]
      | some xy =>
        obtain ⟨x, y⟩ := xy
        by_cases hguard : 2 ≤ x ∧ x ≤ 5 ∧ y = 4
        · obtain ⟨pc, hpc⟩ := piece_of_file_isSome x hguard.1 hguard.2.1
          refine ⟨{ vb with
              board := e.tryPlay vb.board ⟨s, t, some pc⟩
              state := State.playing
              selected := square_from_point vb point
              promotion_square := none }, ?_, ?_, ?_⟩
          · simp only [update, hstate, hhov, hsel, hps, hpc]
            rw [if_pos hguard]
          · simp
          · simp
        · refine ⟨vb, ?_, hiff, hselinv⟩
          simp only [update, hstate, hhov]
          rw [if_neg hguard]

/-- Helper: run never panics and preserves the promotion invariant. -/
theorem run_total_inv {B : Type} (e : Engine B) (vb : VisualBoard B) (msgs : List Message)
    (h : promotionInv vb) :
    ∃ vb2, run e vb msgs = some vb2 ∧ promotionInv vb2 := by
  induction msgs generalizing vb with
  | nil => exact ⟨vb, rfl, h⟩
  | cons m rest ih =>
    obtain ⟨vb2, hstep, hinv⟩ := update_total_inv e vb m h
    obtain ⟨vb3, hrun, hinv3⟩ := ih vb2 hinv
    exact ⟨vb3, by simp only [run, hstep, hrun], hinv3⟩

/-- Helper: a single update step never moves a non-Waiting state to
Waiting. -/
theorem update_not_waiting {B : Type} (e : Engine B) (vb : VisualBoard B) (m : Message)
    (vb2 : VisualBoard B) (hw : vb.state ≠ State.waiting)
    (hstep : update e vb m = some vb2) : vb2.state ≠ State.waiting := by
  cases m with
  | CursorMoved point =>
    cases hstep
    exact hw
  | Clicked point =>
    cases hstate : vb.state with
    | waiting => exact absurd hstate hw
    | playing =>
      rw [update] at hstep
      rw [hstate] at hstep
      cases hsel : vb.selected with
      | none =>
        rw [hsel] at hstep
        cases hsq : square_from_point vb point with
        | none => rw [hsq] at hstep; cases hstep; simp [hstate]
        | some t => rw [hsq] at hstep; cases hstep; simp [hstate]
      | some s =>
        rw [hsel] at hstep
        cases hsq : square_from_point vb point with
        | none => rw [hsq] at hstep; cases hstep; simp [hstate]
        | some t =>
          rw [hsq] at hstep
          simp only at hstep
          cases hpm : (match e.pieceOn vb.board s with
            | some piece => piece == Piece.pawn && e.isPromotionMove vb.board s t
            | none => false) with
          | true => rw [hpm] at hstep; simp at hstep; cases hstep; simp
          | false => rw [hpm] at hstep; simp at hstep; rw [← hstep]; simp [hstate]
    | promoting =>
      rw [update] at hstep
      rw [hstate] at hstep
      cases hhov : vb.hovered_tile with
      | none => rw [hhov] at hstep; cases hstep; simp [hstate]
      | some xy =>
        obtain ⟨x, y⟩ := xy
        rw [hhov] at hstep
        simp only at hstep
        by_cases hguard : 2 ≤ x ∧ x ≤ 5 ∧ y = 4
        · rw [if_pos hguard] at hstep
          cases hpc : piece_of_file x with
          | none => rw [hpc] at hstep; cases hstep
          | some pc =>
            rw [hpc] at hstep
            cases hsel : vb.selected with
            | none => rw [hsel] at hstep; cases hstep
            | some s =>
              rw [hsel] at hstep
              cases hq : vb.promotion_square with
              | none => rw [hq] at hstep; cases hstep
              | some t => rw [hq] at hstep; cases hstep; simp
        · rw [if_neg hguard] at hstep
          cases hstep
          simp [hstate]

/-- Helper: no run starting outside Waiting ever reaches Waiting. -/
theorem run_not_waiting {B : Type} (e : Engine B) (vb : VisualBoard B) (msgs : List Message)
    (hw : vb.state ≠ State.waiting) (vb2 : VisualBoard B)
    (hrun : run e vb msgs = some vb2) : vb2.state ≠ State.waiting := by
  induction msgs generalizing vb with
  | nil =>
    cases hrun
    exact hw
  | cons m rest ih =>
    rw [run] at hrun
    cases hstep : update e vb m with
    | none => rw [hstep] at hrun; cases hrun
    | some vbm =>
      rw [hstep] at hrun
      exact ih vbm (update_not_waiting e vb m vbm hw hstep) hrun

/-- Helper: the concrete click point promoPoint maps to square 60 on a
board with tile size 64. -/
theorem promoPoint_square : square_from_point promoBoard promoPoint = some 60 := by
  have h := sfp_some_of_in promoBoard promoPoint
    (by norm_num [promoBoard, promoPoint]) (by norm_num [promoBoard, promoPoint])
    (by norm_num [promoBoard, promoPoint]) (by norm_num [promoBoard, promoPoint])
  rw [h]
  norm_num [promoBoard, promoPoint, ratToUsize, coord_to_square]
  decide

/-- C1: in the Playing state, when a selection s exists, the click maps
to a square t, the piece on s is a pawn and the engine flags a legal
move from s to t as requiring promotion, processing the click sets the
pending promotion square to t and moves the state to Promoting, while
the selection, the board and the hovered tile are left unchanged. -/
theorem playing_click_promotion_detect {B : Type} (e : Engine B) (vb : VisualBoard B)
    (point : Point) (s t : Square)
    (hstate : vb.state = State.playing)
    (hsel : vb.selected = some s)
    (ht : square_from_point vb point = some t)
    (hpawn : e.pieceOn vb.board s = some Piece.pawn)
    (hpromo : e.isPromotionMove vb.board s t = true) :
    update e vb (Message.Clicked point) =
      some { vb with promotion_square := some t, state := State.promoting } := by
  simp only [update, hstate, hsel, ht, hpawn, hpromo]
  simp

/-- Witness for C1 at a concrete board, engine and click point. -/
theorem playing_click_promotion_detect_witness :
    update pawnEngine promoBoard (Message.Clicked promoPoint) =
      some { promoBoard with promotion_square := some 60, state := State.promoting } :=
  playing_click_promotion_detect pawnEngine promoBoard promoPoint 52 60 rfl rfl
    promoPoint_square rfl rfl

/-- C2: in the Promoting state, with the hovered cell at row 4 and file
x between 2 and 5, a click commits a move from the selection to the
pending promotion square with the piece given by the ascending-file
mapping (2 rook, 3 knight, 4 bishop, 5 queen), returns the state to
Playing and clears the pending promotion square. -/
theorem promoting_click_commit {B : Type} (e : Engine B) (vb : VisualBoard B)
    (point : Point) (x : Nat) (s t : Square)
    (hstate : vb.state = State.promoting)
    (hhov : vb.hovered_tile = some (x, 4))
    (hx2 : 2 ≤ x) (hx5 : x ≤ 5)
    (hsel : vb.selected = some s)
    (hps : vb.promotion_square = some t) :
    update e vb (Message.Clicked point) =
      some { vb with
        board := e.tryPlay vb.board ⟨s, t, piece_of_file x⟩,
        state := State.playing,
        selected := square_from_point vb point,
        promotion_square := none } ∧
    piece_of_file 2 = some Piece.rook ∧ piece_of_file 3 = some Piece.knight ∧
    piece_of_file 4 = some Piece.bishop ∧ piece_of_file 5 = some Piece.queen := by
  refine ⟨?_, rfl, rfl, rfl, rfl⟩
  interval_cases x <;>
    simp only [update, hstate, hhov, hsel, hps, piece_of_file] <;> simp

/-- Witness for C2: hovering grid cell (4, 4) and clicking commits the
pending move with the bishop. -/
theorem promoting_click_commit_witness :
    (update unitEngine pickerBoard (Message.Clicked ⟨0, 0⟩) =
      some { pickerBoard with
        board := unitEngine.tryPlay pickerBoard.board ⟨52, 60, piece_of_file 4⟩
        state := State.playing
        selected := square_from_point pickerBoard ⟨0, 0⟩
        promotion_square := none } ∧
    piece_of_file 2 = some Piece.rook ∧ piece_of_file 3 = some Piece.knight ∧
    piece_of_file 4 = some Piece.bishop ∧ piece_of_file 5 = some Piece.queen) :=
  promoting_click_commit unitEngine pickerBoard ⟨0, 0⟩ 4 52 60 rfl rfl (by decide) (by decide)
    rfl rfl

/-- C3: the coordinate mapping is the fixed bijection
square = 63 - (row * 8 + (7 - file)) with inverse
file = square mod 8, row = 7 - square / 8: round-tripping a square
index through index_to_coord and coord_to_square is the identity on
0..63, and round-tripping a coordinate pair through coord_to_square and
index_to_coord is the identity on pairs with both components below 8. -/
theorem coord_square_bijection :
    (∀ s : Nat, s < 64 →
      coord_to_square (index_to_coord s).1 (index_to_coord s).2 = s) ∧
    (∀ x : Nat, x < 8 → ∀ y : Nat, y < 8 →
      index_to_coord (coord_to_square x y) = (x, y)) := by
  decide

/-- Witness for C3 at concrete inputs. -/
theorem coord_square_bijection_witness :
    coord_to_square (index_to_coord 42).1 (index_to_coord 42).2 = 42 ∧
    index_to_coord (coord_to_square 3 5) = (3, 5) :=
  ⟨coord_square_bijection.1 42 (by decide), coord_square_bijection.2 3 (by decide) 5 (by decide)⟩

/-- C4 counterexample: a click in the Playing state does NOT always set
the selection to the mapped target square.  At this concrete input the
promotion branch fires, the update succeeds, and the resulting
selection (still square 52) differs from the mapped target (square
60). -/
theorem playing_click_unconditional_selection_cex :
    promoBoard.state = State.playing ∧
    update pawnEngine promoBoard (Message.Clicked promoPoint) =
      some { promoBoard with promotion_square := some 60, state := State.promoting } ∧
    ¬ (({ promoBoard with promotion_square := some 60, state := State.promoting } :
        VisualBoard Unit).selected = square_from_point promoBoard promoPoint) := by
  refine ⟨rfl, ?_, ?_⟩
  · have hstate : promoBoard.state = State.playing := rfl
    have hsel : promoBoard.selected = some 52 := rfl
    have hpawn : pawnEngine.pieceOn promoBoard.board 52 = some Piece.pawn := rfl
    have hpm : pawnEngine.isPromotionMove promoBoard.board 52 60 = true := rfl
    simp only [update, hstate, hsel, promoPoint_square, hpawn, hpm]
    simp
  · rw [promoPoint_square]
    simp [promoBoard]

/-- C4 (amended): every click processed in the Playing state that does
not fire the promotion branch sets the selection to the mapped target
square (none when the click is outside the board) and keeps the state
Playing with the pending promotion square and hovered tile unchanged;
when a selection and a target both exist the board becomes the result
of the commit attempt (a failed commit leaves it unchanged and surfaces
no error), and with no selection or no target the board is untouched. -/
theorem playing_click_selection_amended {B : Type} (e : Engine B) (vb : VisualBoard B)
    (point : Point)
    (hstate : vb.state = State.playing)
    (hnp : ¬ ∃ s t, vb.selected = some s ∧ square_from_point vb point = some t ∧
      e.pieceOn vb.board s = some Piece.pawn ∧ e.isPromotionMove vb.board s t = true) :
    ∃ vb2, update e vb (Message.Clicked point) = some vb2 ∧
      vb2.selected = square_from_point vb point ∧
      vb2.state = State.playing ∧
      vb2.promotion_square = vb.promotion_square ∧
      vb2.hovered_tile = vb.hovered_tile ∧
      (∀ s t, vb.selected = some s → square_from_point vb point = some t →
        vb2.board = e.tryPlay vb.board ⟨s, t, none⟩) ∧
      ((vb.selected = none ∨ square_from_point vb point = none) → vb2.board = vb.board) := by
  cases hsel : vb.selected with
  | none =>
    refine ⟨{ vb with selected := square_from_point vb point }, ?_, rfl, hstate, rfl, rfl,
      ?_, fun _ => rfl⟩
    · simp only [update, hstate, hsel]
    · intro s t hs ht
      cases hs
  | some s =>
    cases hsq : square_from_point vb point with
    | none =>
      refine ⟨{ vb with selected := none }, ?_, rfl, hstate, rfl, rfl, ?_, fun _ => rfl⟩
      · simp only [update, hstate, hsel, hsq]
      · intro s2 t2 hs ht
        cases ht
    | some t =>
      have hpm : (match e.pieceOn vb.board s with
          | some piece => piece == Piece.pawn && e.isPromotionMove vb.board s t
          | none => false) = false := by
        cases hpo : e.pieceOn vb.board s with
        | none => rfl
        | some piece =>
          simp only
          cases hpiece : piece == Piece.pawn with
          | false => rfl
          | true =>
            cases hipm : e.isPromotionMove vb.board s t with
            | false => rfl
            | true =>
              exfalso
              refine hnp ⟨s, t, hsel, hsq, ?_, hipm⟩
              rw [hpo, beq_iff_eq.mp hpiece]
      refine ⟨{ vb with
          board := e.tryPlay vb.board ⟨s, t, none⟩
          selected := some t }, ?_, rfl, hstate, rfl, rfl, ?_, ?_⟩
      · simp only [update, hstate, hsel, hsq, hpm]
        simp
      · intro s2 t2 hs ht
        cases hs
        cases ht
        rfl
      · rintro (hh | hh) <;> cases hh

/-- Witness for the amended C4 at a concrete board, engine and click
point where no promotion branch can fire. -/
theorem playing_click_selection_amended_witness :
    ∃ vb2, update unitEngine promoBoard (Message.Clicked promoPoint) = some vb2 ∧
      vb2.selected = square_from_point promoBoard promoPoint ∧
      vb2.state = State.playing ∧
      vb2.promotion_square = promoBoard.promotion_square ∧
      vb2.hovered_tile = promoBoard.hovered_tile ∧
      (∀ s t, promoBoard.selected = some s → square_from_point promoBoard promoPoint = some t →
        vb2.board = unitEngine.tryPlay promoBoard.board ⟨s, t, none⟩) ∧
      ((promoBoard.selected = none ∨ square_from_point promoBoard promoPoint = none) →
        vb2.board = promoBoard.board) := by
  refine playing_click_selection_amended unitEngine promoBoard promoPoint rfl ?_
  rintro ⟨s, t, hs, ht, hpz, hpm⟩
  cases hpz

/-- C5: in every state reachable from the initial state by any message
sequence, the state is Promoting exactly when the pending promotion
square is set, and in the Promoting state a selection exists; the run
always returns some, so the two unwrap calls of the promotion click
path never panic. -/
theorem reachable_promotion_inv {B : Type} (e : Engine B) (b0 : B) (msgs : List Message) :
    ∃ vb2, run e (initialBoard b0) msgs = some vb2 ∧
      (vb2.state = State.promoting ↔ vb2.promotion_square.isSome = true) ∧
      (vb2.state = State.promoting → vb2.selected.isSome = true) :=
  run_total_inv e (initialBoard b0) msgs (by constructor <;> simp [initialBoard])

/-- Witness for C5 on a concrete engine and message list. -/
theorem reachable_promotion_inv_witness :
    ∃ vb2, run unitEngine (initialBoard ()) [Message.Clicked ⟨0, 0⟩] = some vb2 ∧
      (vb2.state = State.promoting ↔ vb2.promotion_square.isSome = true) ∧
      (vb2.state = State.promoting → vb2.selected.isSome = true) :=
  reachable_promotion_inv unitEngine () [Message.Clicked ⟨0, 0⟩]

/-- C6: in the Promoting state, a click while the hovered cell is none
or not one of the four picker cells (row 4, files 2 to 5) is ignored:
the whole state, including board, selection, pending promotion square
and hovered tile, is unchanged and the state remains Promoting. -/
theorem promoting_click_ignored {B : Type} (e : Engine B) (vb : VisualBoard B) (point : Point)
    (hstate : vb.state = State.promoting)
    (hbad : ∀ x y : Nat, vb.hovered_tile = some (x, y) → ¬(2 ≤ x ∧ x ≤ 5 ∧ y = 4)) :
    update e vb (Message.Clicked point) = some vb := by
  cases hhov : vb.hovered_tile with
  | none => simp only [update, hstate, hhov]
  | some xy =>
    obtain ⟨x, y⟩ := xy
    simp only [update, hstate, hhov]
    rw [if_neg (hbad x y hhov)]

/-- Witness for C6 at a concrete Promoting board hovering cell (0, 0). -/
theorem promoting_click_ignored_witness :
    update unitEngine offPickerBoard (Message.Clicked ⟨0, 0⟩) = some offPickerBoard := by
  refine promoting_click_ignored unitEngine offPickerBoard ⟨0, 0⟩ rfl ?_
  intro x y hxy hguard
  have hx : offPickerBoard.hovered_tile = some (0, 0) := rfl
  rw [hx] at hxy
  cases hxy
  omega

/-- C7: mapping a pixel point to a square returns none exactly when the
point is off the board: if either coordinate divided by the tile size
falls outside the interval from 0 inclusive to 8 exclusive the result
is none, and otherwise it is the square obtained by flooring both
scaled coordinates and applying the fixed bijection; an off-board point
is an ordinary none result, never an error. -/
theorem square_from_point_boundary {B : Type} (vb : VisualBoard B) (point : Point) :
    ((point.x / vb.tile_size < 0 ∨ 8 ≤ point.x / vb.tile_size ∨
      point.y / vb.tile_size < 0 ∨ 8 ≤ point.y / vb.tile_size) →
        square_from_point vb point = none) ∧
    ((0 ≤ point.x / vb.tile_size ∧ point.x / vb.tile_size < 8 ∧
      0 ≤ point.y / vb.tile_size ∧ point.y / vb.tile_size < 8) →
        square_from_point vb point =
          some (coord_to_square (ratToUsize (point.x / vb.tile_size))
            (ratToUsize (point.y / vb.tile_size)))) :=
  ⟨fun h => sfp_none_of_out vb point h,
   fun h => sfp_some_of_in vb point h.1 h.2.1 h.2.2.1 h.2.2.2⟩

/-- Witness for C7: a point off the board maps to none and an on-board
point maps to its square. -/
theorem square_from_point_boundary_witness :
    square_from_point sampleBoard ⟨600, 10⟩ = none ∧
    square_from_point sampleBoard ⟨100, 200⟩ = some 33 := by
  constructor
  · exact (square_from_point_boundary sampleBoard ⟨600, 10⟩).1
      (by norm_num [sampleBoard, initialBoard])
  · have h := (square_from_point_boundary sampleBoard ⟨100, 200⟩).2
      (by norm_num [sampleBoard, initialBoard])
    rw [h]
    norm_num [sampleBoard, initialBoard, ratToUsize, coord_to_square]
    decide

/-- C8: the Waiting state is unreachable from the initial state under
any sequence of messages, and a click processed in the Waiting state
leaves the entire state unchanged. -/
theorem waiting_unreachable {B : Type} (e : Engine B) (b0 : B) :
    (∀ (msgs : List Message) (vb2 : VisualBoard B),
      run e (initialBoard b0) msgs = some vb2 → vb2.state ≠ State.waiting) ∧
    (∀ (vb : VisualBoard B) (point : Point), vb.state = State.waiting →
      update e vb (Message.Clicked point) = some vb) := by
  constructor
  · intro msgs vb2 hrun
    exact run_not_waiting e (initialBoard b0) msgs (by simp [initialBoard]) vb2 hrun
  · intro vb point hw
    simp only [update, hw]

/-- Witness for C8: the initial state is not Waiting, and a click on a
concrete Waiting board changes nothing. -/
theorem waiting_unreachable_witness :
    (initialBoard ()).state ≠ State.waiting ∧
    update unitEngine waitingBoard (Message.Clicked ⟨0, 0⟩) = some waitingBoard :=
  ⟨(waiting_unreachable unitEngine ()).1 [] (initialBoard ()) rfl,
   (waiting_unreachable unitEngine ()).2 waitingBoard ⟨0, 0⟩ rfl⟩

/-- C9: processing a CursorMoved message touches only the hovered tile:
the board, selection, pending promotion square and state are unchanged,
the hovered tile becomes the floored scaled pair when both scaled
coordinates lie in the interval from 0 inclusive to 8 exclusive and
none otherwise, and processing the same CursorMoved message again
leaves the resulting state fixed, so repeated events to the same point
yield the same hovered cell. -/
theorem cursor_moved_idempotent {B : Type} (e : Engine B) (vb : VisualBoard B) (point : Point) :
    ∃ vb2, update e vb (Message.CursorMoved point) = some vb2 ∧
      vb2.board = vb.board ∧ vb2.selected = vb.selected ∧
      vb2.promotion_square = vb.promotion_square ∧ vb2.state = vb.state ∧
      vb2.hovered_tile = (if 0 ≤ point.x / vb.tile_size ∧ point.x / vb.tile_size < 8 ∧
          0 ≤ point.y / vb.tile_size ∧ point.y / vb.tile_size < 8 then
        some (ratToUsize (point.x / vb.tile_size), ratToUsize (point.y / vb.tile_size))
      else none) ∧
      update e vb2 (Message.CursorMoved point) = some vb2 := by
  refine ⟨{ vb with hovered_tile := hover_of_point vb point }, rfl, rfl, rfl, rfl, rfl, ?_, ?_⟩
  · exact hover_of_point_eq vb point
  · rfl

/-- Witness for C9 at a concrete board and point. -/
theorem cursor_moved_idempotent_witness :
    ∃ vb2, update unitEngine sampleBoard (Message.CursorMoved ⟨100, 200⟩) = some vb2 ∧
      vb2.board = sampleBoard.board ∧ vb2.selected = sampleBoard.selected ∧
      vb2.promotion_square = sampleBoard.promotion_square ∧ vb2.state = sampleBoard.state ∧
      vb2.hovered_tile = (if 0 ≤ (100 : ℚ) / sampleBoard.tile_size ∧
          (100 : ℚ) / sampleBoard.tile_size < 8 ∧
          0 ≤ (200 : ℚ) / sampleBoard.tile_size ∧ (200 : ℚ) / sampleBoard.tile_size < 8 then
        some (ratToUsize ((100 : ℚ) / sampleBoard.tile_size),
          ratToUsize ((200 : ℚ) / sampleBoard.tile_size))
      else none) ∧
      update unitEngine vb2 (Message.CursorMoved ⟨100, 200⟩) = some vb2 :=
  cursor_moved_idempotent unitEngine sampleBoard ⟨100, 200⟩

/-- C10: under the picker guard (hovered file between 2 and 5 at row
4), the promotion-piece match always resolves to one of the four listed
arms, so the panic arm is unreachable. -/
theorem piece_of_file_total (x : Nat) (h2 : 2 ≤ x) (h5 : x ≤ 5) :
    ∃ p, piece_of_file x = some p ∧
      (p = Piece.rook ∨ p = Piece.knight ∨ p = Piece.bishop ∨ p = Piece.queen) := by
  interval_cases x
  · exact ⟨Piece.rook, rfl, Or.inl rfl⟩
  · exact ⟨Piece.knight, rfl, Or.inr (Or.inl rfl)⟩
  · exact ⟨Piece.bishop, rfl, Or.inr (Or.inr (Or.inl rfl))⟩
  · exact ⟨Piece.queen, rfl, Or.inr (Or.inr (Or.inr rfl))⟩

/-- Witness for C10 at the concrete file 3. -/
theorem piece_of_file_total_witness :
    ∃ p, piece_of_file 3 = some p ∧
      (p = Piece.rook ∨ p = Piece.knight ∨ p = Piece.bishop ∨ p = Piece.queen) :=
  piece_of_file_total 3 (by decide) (by decide)
